import Mathlib

/-!
Shallow embedding of the litex-bridge crate's core (`src/soc_info.rs` and
`src/csr.rs`): the SoC metadata model, the per-register address resolver of
`CsrRo`/`CsrRw`, the register-handle read/write loops, the `Option<T>`
optional-member instance, and the group composition generated by the
`csr_struct!` macro.

Machine integers (`u32`) are modelled as `Nat` with explicit `% 2^32` where
overflow matters (Rust release-mode wrapping arithmetic); `HashMap` lookups
become association-list lookups; fallible functions return `Except`.
-/

/-- `CsrKind` from `src/soc_info.rs`: whether a CSR is read-only or
read-write. -/
inductive CsrKind
  | ReadOnly
  | ReadWrite
deriving DecidableEq

/-- `CsrInfo` from `src/soc_info.rs`: information about an individual CSR
(`addr`, `size` in 32-bit words, `kind`). -/
structure CsrInfo where
  addr : Nat
  size : Nat
  kind : CsrKind
deriving DecidableEq

/-- `SocConstant` from `src/soc_info.rs`: a string or integer constant. -/
inductive SocConstant
  | string (s : String)
  | integer (i : Int)
deriving DecidableEq

/-- `MemoryRegion` from `src/soc_info.rs`: a region of the SoC's memory. -/
structure MemoryRegion where
  base : Nat
  size : Nat
  kind : String
deriving DecidableEq

/-- `SocInfo` from `src/soc_info.rs`: the parsed metadata of a LiteX SoC.
The `HashMap`s become association lists (keys are unique per the data-model
invariants, so first-match lookup agrees with map lookup). -/
structure SocInfo where
  csr_bases : List (String × Nat)
  csr_registers : List (String × CsrInfo)
  constants : List (String × Option SocConstant)
  memories : List (String × MemoryRegion)

/-- `Error` from `src/csr.rs`: the resolution error type. -/
inductive Error
  | NoCsrRegion
  | MissingCsr (csr : String)
  | CsrWrongSize (csr : String) (expected found : Nat)
  | CsrWrongKind (csr : String) (expected found : CsrKind)
deriving DecidableEq

/-- Rust `u32` wrapping subtraction: for `a b < 2^32` this is
`a.wrapping_sub(b)`, the release-mode meaning of `addr -= base`. -/
def u32sub (a b : Nat) : Nat :=
  (a + (2 ^ 32 - b % 2 ^ 32)) % 2 ^ 32

/-- `SocInfo::csr_base` from `src/soc_info.rs`: the base address of the
`"csr"` memory region, or `NoCsrRegion` if absent. -/
def SocInfo.csr_base (soc : SocInfo) : Except Error Nat :=
  match soc.memories.lookup "csr" with
  | some region => .ok region.base
  | none => .error .NoCsrRegion

/-- `<CsrRo<N> as CsrGroup>::addrs` from `src/csr.rs`: look the name up in
`csr_registers`, check size then kind (read-only), then subtract the CSR
window base when `csrOnly` is set. -/
def CsrRo.addrs (soc : SocInfo) (csrOnly : Bool) (module : String) (N : Nat) :
    Except Error Nat :=
  match soc.csr_registers.lookup module with
  | none => .error (.MissingCsr module)
  | some info =>
    if info.size ≠ N then
      .error (.CsrWrongSize module N info.size)
    else if info.kind ≠ CsrKind.ReadOnly then
      .error (.CsrWrongKind module CsrKind.ReadOnly info.kind)
    else if csrOnly then
      match soc.csr_base with
      | .ok base => .ok (u32sub info.addr base)
      | .error e => .error e
    else
      .ok info.addr

/-- `<CsrRw<N> as CsrGroup>::addrs` from `src/csr.rs`: same as `CsrRo.addrs`
but the expected kind is read-write. -/
def CsrRw.addrs (soc : SocInfo) (csrOnly : Bool) (module : String) (N : Nat) :
    Except Error Nat :=
  match soc.csr_registers.lookup module with
  | none => .error (.MissingCsr module)
  | some info =>
    if info.size ≠ N then
      .error (.CsrWrongSize module N info.size)
    else if info.kind ≠ CsrKind.ReadWrite then
      .error (.CsrWrongKind module CsrKind.ReadWrite info.kind)
    else if csrOnly then
      match soc.csr_base with
      | .ok base => .ok (u32sub info.addr base)
      | .error e => .error e
    else
      .ok info.addr

/-- The loop body shared by `CsrRo::read` and `CsrRw::read` in `src/csr.rs`:
peek words at `offset + 4*i` (u32 wrapping addition) for `i` running from the
given start index, `count` words in all; the `?` on each peek propagates the
first bridge error. -/
def readLoop {ε : Type} (peek : Nat → Except ε Nat) (offset : Nat) :
    Nat → Nat → Except ε (List Nat)
  | _, 0 => .ok []
  | i, count + 1 =>
    match peek ((offset + 4 * i) % 2 ^ 32) with
    | .error e => .error e
    | .ok w =>
      match readLoop peek offset (i + 1) count with
      | .error e => .error e
      | .ok rest => .ok (w :: rest)

/-- `CsrRo::read` from `src/csr.rs`: read `N` words at
`offset, offset+4, ...` through the bridge's `peek`. -/
def CsrRo.read {ε : Type} (peek : Nat → Except ε Nat) (offset N : Nat) :
    Except ε (List Nat) :=
  readLoop peek offset 0 N

/-- `CsrRw::read` from `src/csr.rs`: identical body to `CsrRo::read`. -/
def CsrRw.read {ε : Type} (peek : Nat → Except ε Nat) (offset N : Nat) :
    Except ε (List Nat) :=
  readLoop peek offset 0 N

/-- The loop of `CsrRw::write` from `src/csr.rs`: poke `value[i]` at
`offset + 4*i` in index order, threading the device state `σ` mutated by the
bridge; the `?` on each poke propagates the first bridge error. -/
def writeLoop {σ ε : Type} (poke : σ → Nat → Nat → Except ε σ) (offset : Nat) :
    σ → Nat → List Nat → Except ε σ
  | s, _, [] => .ok s
  | s, i, v :: rest =>
    match poke s ((offset + 4 * i) % 2 ^ 32) v with
    | .error e => .error e
    | .ok s' => writeLoop poke offset s' (i + 1) rest

/-- `CsrRw::write` from `src/csr.rs`: write the words of `values` at
`offset, offset+4, ...` through the bridge's `poke`. -/
def CsrRw.write {σ ε : Type} (poke : σ → Nat → Nat → Except ε σ) (s : σ)
    (offset : Nat) (values : List Nat) : Except ε σ :=
  writeLoop poke offset s 0 values

/-- The mock bridge's `poke` (spec §8 round-trip property): store the value
at the address, never failing. The device state is a plain store
`Nat → Nat`. -/
def mockPoke (s : Nat → Nat) (a v : Nat) : Except Unit (Nat → Nat) :=
  .ok (fun x => if x = a then v else s x)

/-- The mock bridge's `peek`: return the stored value, never failing. -/
def mockPeek (s : Nat → Nat) (a : Nat) : Except Unit Nat :=
  .ok (s a)

/-- The store produced by running `writeLoop` with the mock bridge: each word
of `values` is stored at its address in index order. -/
def mockStore (offset : Nat) : (Nat → Nat) → Nat → List Nat → (Nat → Nat)
  | s, _, [] => s
  | s, i, v :: rest =>
    mockStore offset (fun x => if x = (offset + 4 * i) % 2 ^ 32 then v else s x)
      (i + 1) rest

mutual
/-- The static shape of a `CsrGroup` type: a `CsrRo<N>` or `CsrRw<N>` leaf,
an `Option<T>` wrapper, or a struct defined by `csr_struct!` with its ordered
field list. -/
inductive CsrSchema
  | ro (N : Nat)
  | rw (N : Nat)
  | opt (s : CsrSchema)
  | group (fields : CsrFields)

/-- The ordered, named field list of a `csr_struct!` struct. -/
inductive CsrFields
  | nil
  | cons (name : String) (s : CsrSchema) (rest : CsrFields)
end

mutual
/-- The `Addrs` associated type: a `u32` for a leaf, `Option<T::Addrs>` for
an optional member, and the per-field address record for a struct. -/
inductive Addrs
  | leaf (a : Nat)
  | absent
  | present (a : Addrs)
  | node (addrs : AddrsList)

/-- Positional list of the resolved member addresses of a struct. -/
inductive AddrsList
  | nil
  | cons (a : Addrs) (rest : AddrsList)
end

mutual
/-- `CsrGroup::addrs` for an arbitrary group shape, from `src/csr.rs`:
leaves dispatch to `CsrRo.addrs`/`CsrRw.addrs`; `opt` is the
`impl CsrGroup for Option<T>` instance (convert a `MissingCsr` failure of the
wrapped resolution into a present-but-absent success, propagate any other
error); `group` is the `addrs` generated by `csr_struct!`, resolving each
field in order under the qualified name `module ++ "_" ++ field_name`, the
`?` propagating the first field's error. -/
def CsrSchema.addrs (soc : SocInfo) (csrOnly : Bool) (module : String) :
    CsrSchema → Except Error Addrs
  | .ro N =>
    match CsrRo.addrs soc csrOnly module N with
    | .ok a => .ok (.leaf a)
    | .error e => .error e
  | .rw N =>
    match CsrRw.addrs soc csrOnly module N with
    | .ok a => .ok (.leaf a)
    | .error e => .error e
  | .opt s =>
    match CsrSchema.addrs soc csrOnly module s with
    | .ok a => .ok (.present a)
    | .error (.MissingCsr _) => .ok .absent
    | .error e => .error e
  | .group fields =>
    match CsrFields.addrs soc csrOnly module fields with
    | .ok addrs => .ok (.node addrs)
    | .error e => .error e

/-- The field-by-field resolution inside the `addrs` generated by
`csr_struct!`: each field is resolved under `module ++ "_" ++ name`,
first failure wins. -/
def CsrFields.addrs (soc : SocInfo) (csrOnly : Bool) (module : String) :
    CsrFields → Except Error AddrsList
  | .nil => .ok .nil
  | .cons name s rest =>
    match CsrSchema.addrs soc csrOnly (module ++ "_" ++ name) s with
    | .error e => .error e
    | .ok a =>
      match CsrFields.addrs soc csrOnly module rest with
      | .error e => .error e
      | .ok addrs => .ok (.cons a addrs)
end

/-- A chain of singleton `csr_struct!` groups: `nest [n1, ..., nk] s` is the
group whose single field `n1` is the group whose single field `n2` is ...
the schema `s`. -/
def nest : List String → CsrSchema → CsrSchema
  | [], s => s
  | n :: rest, s => .group (.cons n (nest rest s) .nil)

/-- Wrap an address record in `k` layers of singleton struct records. -/
def wrapNode : Nat → Addrs → Addrs
  | 0, a => a
  | k + 1, a => .node (.cons (wrapNode k a) .nil)

/-- Join a qualification prefix and a list of names with `_`, the
fully-qualified-name convention of `csr_struct!`. -/
def qualify (module : String) (names : List String) : String :=
  names.foldl (fun acc n => acc ++ "_" ++ n) module

/-! Concrete metadata fixtures used to instantiate the theorems. -/

/-- A 1-word read-only register at `0x1000`. -/
def regRo : CsrInfo := ⟨0x1000, 1, CsrKind.ReadOnly⟩

/-- A 2-word read-write register at `0x1800`. -/
def regRw : CsrInfo := ⟨0x1800, 2, CsrKind.ReadWrite⟩

/-- A 1-word read-only register at `0x100`, below the CSR window base. -/
def regLow : CsrInfo := ⟨0x100, 1, CsrKind.ReadOnly⟩

/-- A `"csr"` memory region based at `0x800`. -/
def csrRegion : MemoryRegion := ⟨0x800, 0x1000, "io"⟩

/-- Metadata with three registers and a `"csr"` region. -/
def socWithCsr : SocInfo :=
  ⟨[], [("ident_mem", regRo), ("ctrl_reset", regRw), ("low_reg", regLow)],
    [], [("csr", csrRegion)]⟩

/-- Metadata with one register and no `"csr"` region. -/
def socNoCsr : SocInfo :=
  ⟨[], [("ident_mem", regRo)], [], []⟩

/-! Arithmetic helper lemmas about the wrapping subtraction. -/

/-- In-range case: wrapping subtraction agrees with exact subtraction. -/
theorem u32sub_eq_sub (a b : Nat) (hba : b ≤ a) (ha : a < 2 ^ 32) :
    u32sub a b = a - b := by
  unfold u32sub
  rw [Nat.mod_eq_of_lt (lt_of_le_of_lt hba ha)]
  have h1 : a + (2 ^ 32 - b) = (a - b) + 2 ^ 32 := by omega
  rw [h1, Nat.add_mod_right]
  exact Nat.mod_eq_of_lt (by omega)

/-- Underflow case: wrapping subtraction wraps around `2^32`. -/
theorem u32sub_eq_wrap (a b : Nat) (hab : a < b) (hb : b < 2 ^ 32) :
    u32sub a b = a + 2 ^ 32 - b := by
  unfold u32sub
  rw [Nat.mod_eq_of_lt hb]
  have h1 : a + (2 ^ 32 - b) = a + 2 ^ 32 - b := by omega
  rw [h1]
  exact Nat.mod_eq_of_lt (by omega)

/-- Claim C1: for metadata containing a register descriptor named `m` with
word count `N` and access kind `K`, resolving `m` with expected word count
`N` and expected kind `K` succeeds; it returns exactly the descriptor's
address when `csrOnly` is false, and the descriptor's address minus the
`"csr"` region's base when `csrOnly` is true and a `"csr"` region exists. -/
theorem resolve_matching_returns_addr (soc : SocInfo) (m : String)
    (info : CsrInfo) (hlook : soc.csr_registers.lookup m = some info) :
    (info.kind = CsrKind.ReadOnly →
      CsrRo.addrs soc false m info.size = .ok info.addr) ∧
    (info.kind = CsrKind.ReadWrite →
      CsrRw.addrs soc false m info.size = .ok info.addr) ∧
    (∀ r, soc.memories.lookup "csr" = some r → r.base ≤ info.addr →
      info.addr < 2 ^ 32 →
      (info.kind = CsrKind.ReadOnly →
        CsrRo.addrs soc true m info.size = .ok (info.addr - r.base)) ∧
      (info.kind = CsrKind.ReadWrite →
        CsrRw.addrs soc true m info.size = .ok (info.addr - r.base))) := by
  refine ⟨fun hk => ?_, fun hk => ?_,
    fun r hr hba ha => ⟨fun hk => ?_, fun hk => ?_⟩⟩
  · simp [CsrRo.addrs, hlook, hk]
  · simp [CsrRw.addrs, hlook, hk]
  · simp [CsrRo.addrs, hlook, hk, SocInfo.csr_base, hr,
      u32sub_eq_sub info.addr r.base hba ha]
  · simp [CsrRw.addrs, hlook, hk, SocInfo.csr_base, hr,
      u32sub_eq_sub info.addr r.base hba ha]

/-- Witness for C1 at concrete metadata: `"ident_mem"` has address `0x1000`,
word count 1 and kind read-only; absolute resolution yields `0x1000` and
window-relative resolution yields `0x1000 - 0x800 = 0x800`. -/
theorem resolve_matching_returns_addr_witness :
    socWithCsr.csr_registers.lookup "ident_mem" = some regRo ∧
    socWithCsr.memories.lookup "csr" = some csrRegion ∧
    CsrRo.addrs socWithCsr false "ident_mem" 1 = .ok 0x1000 ∧
    CsrRo.addrs socWithCsr true "ident_mem" 1 = .ok 0x800 := by
  have h := resolve_matching_returns_addr socWithCsr "ident_mem" regRo rfl
  exact ⟨rfl, rfl, h.1 rfl,
    (h.2.2 csrRegion rfl (by decide) (by decide)).1 rfl⟩

/-- Claim C4: when the descriptor's word count differs from the expected
word count, resolution fails with `CsrWrongSize` carrying the name, the
expected count and the found count — never with `CsrWrongKind`, even when
the kind also mismatches: existence, then size, then kind. -/
theorem size_checked_before_kind (soc : SocInfo) (csrOnly : Bool)
    (m : String) (info : CsrInfo) (N : Nat)
    (hlook : soc.csr_registers.lookup m = some info) (hsz : info.size ≠ N) :
    CsrRo.addrs soc csrOnly m N = .error (.CsrWrongSize m N info.size) ∧
    CsrRw.addrs soc csrOnly m N = .error (.CsrWrongSize m N info.size) := by
  constructor <;> simp [CsrRo.addrs, CsrRw.addrs, hlook, hsz]

/-- Witness for C4: `"ctrl_reset"` has size 2 and kind read-write; resolving
it as a 1-word read-only register reports `CsrWrongSize` (not
`CsrWrongKind`, though the kind also mismatches), and so does resolving it
as a 1-word read-write register. -/
theorem size_checked_before_kind_witness :
    socWithCsr.csr_registers.lookup "ctrl_reset" = some regRw ∧
    regRw.size ≠ 1 ∧ regRw.kind ≠ CsrKind.ReadOnly ∧
    CsrRo.addrs socWithCsr false "ctrl_reset" 1 =
      .error (.CsrWrongSize "ctrl_reset" 1 2) ∧
    CsrRw.addrs socWithCsr false "ctrl_reset" 1 =
      .error (.CsrWrongSize "ctrl_reset" 1 2) := by
  have h := size_checked_before_kind socWithCsr false "ctrl_reset" regRw 1
    rfl (by decide)
  exact ⟨rfl, by decide, by decide, h.1, h.2⟩

/-- Claim C5: `csr_base` returns the `"csr"` region's base exactly when that
region is present; when it is absent, window-relative resolution of any
register fails with `NoCsrRegion` even when the register exists and matches
the expected size and kind. -/
theorem no_csr_region_fails_relative (soc : SocInfo) :
    (∀ r, soc.memories.lookup "csr" = some r → soc.csr_base = .ok r.base) ∧
    (soc.memories.lookup "csr" = none →
      soc.csr_base = .error .NoCsrRegion ∧
      ∀ m info, soc.csr_registers.lookup m = some info →
        (info.kind = CsrKind.ReadOnly →
          CsrRo.addrs soc true m info.size = .error .NoCsrRegion) ∧
        (info.kind = CsrKind.ReadWrite →
          CsrRw.addrs soc true m info.size = .error .NoCsrRegion)) := by
  refine ⟨fun r hr => by simp [SocInfo.csr_base, hr], fun hn => ⟨?_, ?_⟩⟩
  · simp [SocInfo.csr_base, hn]
  · intro m info hlook
    constructor <;> intro hk <;>
      simp [CsrRo.addrs, CsrRw.addrs, hlook, hk, SocInfo.csr_base, hn]

/-- Witness for C5: metadata without a `"csr"` region; `"ident_mem"` exists
and matches (1 word, read-only), yet window-relative resolution fails with
`NoCsrRegion`, and `csr_base` fails with `NoCsrRegion`. -/
theorem no_csr_region_fails_relative_witness :
    socNoCsr.memories.lookup "csr" = none ∧
    socNoCsr.csr_registers.lookup "ident_mem" = some regRo ∧
    socNoCsr.csr_base = .error .NoCsrRegion ∧
    CsrRo.addrs socNoCsr true "ident_mem" 1 = .error .NoCsrRegion := by
  have h := (no_csr_region_fails_relative socNoCsr).2 rfl
  exact ⟨rfl, rfl, h.1, (h.2 "ident_mem" regRo rfl).1 rfl⟩

/-- Claim C6: for a name absent from the register map, resolution fails with
`MissingCsr` carrying that name, for every requested word count and both
access kinds. -/
theorem missing_name_fails_missing_csr (soc : SocInfo) (m : String)
    (habs : soc.csr_registers.lookup m = none) (N : Nat) (csrOnly : Bool) :
    CsrRo.addrs soc csrOnly m N = .error (.MissingCsr m) ∧
    CsrRw.addrs soc csrOnly m N = .error (.MissingCsr m) := by
  constructor <;> simp [CsrRo.addrs, CsrRw.addrs, habs]

/-- Witness for C6: `"nonexistent"` is not in the metadata; both resolvers
fail with `MissingCsr "nonexistent"` at word count 3. -/
theorem missing_name_fails_missing_csr_witness :
    socWithCsr.csr_registers.lookup "nonexistent" = none ∧
    CsrRo.addrs socWithCsr false "nonexistent" 3 =
      .error (.MissingCsr "nonexistent") ∧
    CsrRw.addrs socWithCsr true "nonexistent" 3 =
      .error (.MissingCsr "nonexistent") := by
  exact ⟨rfl,
    (missing_name_fails_missing_csr socWithCsr "nonexistent" rfl 3 false).1,
    (missing_name_fails_missing_csr socWithCsr "nonexistent" rfl 3 true).2⟩

/-- Claim C9: window-relative resolution subtracts the `"csr"` base with an
unchecked 32-bit subtraction: when the register's address is below the base
(and otherwise matches), resolution does not fail — it returns the wrapped
difference `addr + 2^32 - base` (the difference modulo `2^32`), with no
validation that the register lies inside the CSR window. -/
theorem window_relative_underflow_wraps (soc : SocInfo) (m : String)
    (info : CsrInfo) (r : MemoryRegion)
    (hlook : soc.csr_registers.lookup m = some info)
    (hr : soc.memories.lookup "csr" = some r)
    (hlt : info.addr < r.base) (hb : r.base < 2 ^ 32) :
    (info.kind = CsrKind.ReadOnly →
      CsrRo.addrs soc true m info.size = .ok (info.addr + 2 ^ 32 - r.base)) ∧
    (info.kind = CsrKind.ReadWrite →
      CsrRw.addrs soc true m info.size = .ok (info.addr + 2 ^ 32 - r.base)) := by
  constructor <;> intro hk <;>
    simp [CsrRo.addrs, CsrRw.addrs, hlook, hk, SocInfo.csr_base, hr,
      u32sub_eq_wrap info.addr r.base hlt hb]

/-- Witness for C9: `"low_reg"` sits at `0x100`, below the `"csr"` base
`0x800`; window-relative resolution succeeds with the wrapped value
`0x100 + 2^32 - 0x800 = 4294965504`. -/
theorem window_relative_underflow_wraps_witness :
    socWithCsr.csr_registers.lookup "low_reg" = some regLow ∧
    socWithCsr.memories.lookup "csr" = some csrRegion ∧
    regLow.addr < csrRegion.base ∧
    CsrRo.addrs socWithCsr true "low_reg" 1 = .ok 4294965504 := by
  have h := window_relative_underflow_wraps socWithCsr "low_reg" regLow
    csrRegion rfl rfl (by decide) (by decide)
  exact ⟨rfl, rfl, by decide, h.1 rfl⟩

/-! Unfolding lemmas for the mutually recursive group resolution. -/

/-- Unfold `CsrSchema.addrs` on an optional member. -/
theorem addrs_opt_unfold (soc : SocInfo) (csrOnly : Bool) (module : String)
    (s : CsrSchema) :
    CsrSchema.addrs soc csrOnly module (.opt s) =
      match CsrSchema.addrs soc csrOnly module s with
      | .ok a => .ok (.present a)
      | .error (.MissingCsr _) => .ok .absent
      | .error e => .error e := by
  cases h : CsrSchema.addrs soc csrOnly module s with
  | ok a => simp [CsrSchema.addrs, h]
  | error e => cases e <;> simp [CsrSchema.addrs, h]

/-- Unfold `CsrSchema.addrs` on a struct. -/
theorem addrs_group_unfold (soc : SocInfo) (csrOnly : Bool) (module : String)
    (fields : CsrFields) :
    CsrSchema.addrs soc csrOnly module (.group fields) =
      match CsrFields.addrs soc csrOnly module fields with
      | .ok addrs => .ok (.node addrs)
      | .error e => .error e := by
  cases h : CsrFields.addrs soc csrOnly module fields with
  | ok addrs => simp [CsrSchema.addrs, h]
  | error e => simp [CsrSchema.addrs, h]

/-- Unfold `CsrFields.addrs` on a field-list cons cell. -/
theorem addrs_fields_cons_unfold (soc : SocInfo) (csrOnly : Bool)
    (module name : String) (s : CsrSchema) (rest : CsrFields) :
    CsrFields.addrs soc csrOnly module (.cons name s rest) =
      match CsrSchema.addrs soc csrOnly (module ++ "_" ++ name) s with
      | .error e => .error e
      | .ok a =>
        match CsrFields.addrs soc csrOnly module rest with
        | .error e => .error e
        | .ok addrs => .ok (.cons a addrs) := by
  cases h : CsrSchema.addrs soc csrOnly (module ++ "_" ++ name) s with
  | ok a => cases h2 : CsrFields.addrs soc csrOnly module rest <;>
      simp [CsrFields.addrs, h, h2]
  | error e => simp [CsrFields.addrs, h]

/-- Resolution of a chain of singleton groups with names
`[n1, ..., nk]` resolves the inner schema at the `_`-joined qualified name
and wraps the result in `k` singleton records. -/
theorem nest_addrs (soc : SocInfo) (csrOnly : Bool) (names : List String)
    (module : String) (s : CsrSchema) :
    CsrSchema.addrs soc csrOnly module (nest names s) =
      match CsrSchema.addrs soc csrOnly (qualify module names) s with
      | .ok a => .ok (wrapNode names.length a)
      | .error e => .error e := by
  induction names generalizing module with
  | nil =>
    cases h : CsrSchema.addrs soc csrOnly (qualify module []) s <;>
      simp [nest, qualify, wrapNode, h] <;> exact h
  | cons n rest ih =>
    have hq : qualify module (n :: rest) = qualify (module ++ "_" ++ n) rest :=
      rfl
    rw [hq, nest, addrs_group_unfold, addrs_fields_cons_unfold, ih]
    cases h : CsrSchema.addrs soc csrOnly (qualify (module ++ "_" ++ n) rest) s with
    | ok a => simp [CsrFields.addrs, wrapNode]
    | error e => simp

/-- Claim C2: group resolution qualifies a member's name by joining the
prefix and the field name with `_`: recursively, a leaf nested under group
names `[n1, ..., nk]` is looked up at the `_`-joined fully-qualified name,
and in particular a group with outer prefix `"foo"` and member field
`"bar"` resolves that member against the metadata key `"foo_bar"`. -/
theorem group_resolution_joins_names_with_underscore (soc : SocInfo)
    (csrOnly : Bool) :
    (∀ module names N,
      CsrSchema.addrs soc csrOnly module (nest names (.ro N)) =
        match CsrRo.addrs soc csrOnly (qualify module names) N with
        | .ok a => .ok (wrapNode names.length (.leaf a))
        | .error e => .error e) ∧
    (∀ N, CsrSchema.addrs soc csrOnly "foo"
        (.group (.cons "bar" (.ro N) .nil)) =
      match CsrRo.addrs soc csrOnly "foo_bar" N with
      | .ok a => .ok (.node (.cons (.leaf a) .nil))
      | .error e => .error e) := by
  have key : ∀ module names N,
      CsrSchema.addrs soc csrOnly module (nest names (CsrSchema.ro N)) =
        match CsrRo.addrs soc csrOnly (qualify module names) N with
        | .ok a => .ok (wrapNode names.length (.leaf a))
        | .error e => .error e := by
    intro module names N
    rw [nest_addrs]
    cases h : CsrRo.addrs soc csrOnly (qualify module names) N <;>
      simp [CsrSchema.addrs, h]
  refine ⟨key, fun N => ?_⟩
  have h2 := key "foo" ["bar"] N
  have hq : qualify "foo" ["bar"] = "foo_bar" := rfl
  rw [hq] at h2
  rw [show nest ["bar"] (CsrSchema.ro N) =
    CsrSchema.group (.cons "bar" (.ro N) .nil) from rfl] at h2
  rw [h2]
  cases CsrRo.addrs soc csrOnly "foo_bar" N <;> simp [wrapNode]

/-- Claim C3: for an optional member of a group, when the member's own
resolution fails with `MissingCsr`, the group resolves successfully with
that member absent and the other member resolved as usual; when it fails
with any other error (wrong size, wrong kind, no CSR region), that error
propagates and the group resolution fails. -/
theorem optional_member_absent_or_propagates (soc : SocInfo) (csrOnly : Bool)
    (module a b : String) (s₁ s₂ : CsrSchema) (x : Addrs)
    (h₁ : CsrSchema.addrs soc csrOnly (module ++ "_" ++ a) s₁ = .ok x) :
    (∀ n, CsrSchema.addrs soc csrOnly (module ++ "_" ++ b) s₂ =
        .error (.MissingCsr n) →
      CsrSchema.addrs soc csrOnly module
          (.group (.cons a s₁ (.cons b (.opt s₂) .nil))) =
        .ok (.node (.cons x (.cons .absent .nil)))) ∧
    (∀ e, CsrSchema.addrs soc csrOnly (module ++ "_" ++ b) s₂ = .error e →
      (∀ n, e ≠ .MissingCsr n) →
      CsrSchema.addrs soc csrOnly module
          (.group (.cons a s₁ (.cons b (.opt s₂) .nil))) = .error e) := by
  constructor
  · intro n h₂
    rw [addrs_group_unfold, addrs_fields_cons_unfold, h₁,
      addrs_fields_cons_unfold, addrs_opt_unfold, h₂]
    simp [CsrFields.addrs]
  · intro e h₂ hne
    rw [addrs_group_unfold, addrs_fields_cons_unfold, h₁,
      addrs_fields_cons_unfold, addrs_opt_unfold, h₂]
    cases e with
    | MissingCsr n => exact absurd rfl (hne n)
    | NoCsrRegion => simp
    | CsrWrongSize c x y => simp
    | CsrWrongKind c x y => simp

/-- Witness for C3: in `socWithCsr`, `"ident_mem"` is present (so the first
member resolves to `0x1000`) and `"ident_gone"` is absent, so the group
with optional member `"gone"` resolves with that member absent. -/
theorem optional_member_absent_or_propagates_witness :
    CsrSchema.addrs socWithCsr false ("ident" ++ "_" ++ "mem") (.ro 1) =
      .ok (.leaf 0x1000) ∧
    CsrSchema.addrs socWithCsr false ("ident" ++ "_" ++ "gone") (.ro 1) =
      .error (.MissingCsr "ident_gone") ∧
    CsrSchema.addrs socWithCsr false "ident"
        (.group (.cons "mem" (.ro 1) (.cons "gone" (.opt (.ro 1)) .nil))) =
      .ok (.node (.cons (.leaf 0x1000) (.cons .absent .nil))) := by
  have h := optional_member_absent_or_propagates socWithCsr false "ident"
    "mem" "gone" (.ro 1) (.ro 1) (.leaf 0x1000) rfl
  exact ⟨rfl, rfl, h.1 "ident_gone" rfl⟩

/-- Claim C10: wrapping a whole multi-member group in an optional: whenever
the group's own resolution fails with a `MissingCsr` error (its first
failing member's error), the optional resolution succeeds with the whole
group absent — even if other members of the group are present in the
metadata. -/
theorem optional_group_missing_member_makes_absent (soc : SocInfo)
    (csrOnly : Bool) (module : String) (fields : CsrFields) (n : String)
    (h : CsrSchema.addrs soc csrOnly module (.group fields) =
      .error (.MissingCsr n)) :
    CsrSchema.addrs soc csrOnly module (.opt (.group fields)) =
      .ok .absent := by
  rw [addrs_opt_unfold, h]

/-- Witness for C10: the two-member group `{gone, mem}` under prefix
`"ident"`: `"ident_gone"` is missing while `"ident_mem"` is present, so
the group itself fails with `MissingCsr "ident_gone"`, yet the optional
wrapping of the whole group resolves to absent. -/
theorem optional_group_missing_member_makes_absent_witness :
    socWithCsr.csr_registers.lookup "ident_mem" = some regRo ∧
    CsrSchema.addrs socWithCsr false "ident"
        (.group (.cons "gone" (.ro 1) (.cons "mem" (.ro 1) .nil))) =
      .error (.MissingCsr "ident_gone") ∧
    CsrSchema.addrs socWithCsr false "ident"
        (.opt (.group (.cons "gone" (.ro 1) (.cons "mem" (.ro 1) .nil)))) =
      .ok .absent := by
  have hg : CsrSchema.addrs socWithCsr false "ident"
      (CsrSchema.group (.cons "gone" (.ro 1) (.cons "mem" (.ro 1) .nil))) =
      .error (.MissingCsr "ident_gone") := rfl
  exact ⟨rfl, hg,
    optional_group_missing_member_makes_absent socWithCsr false "ident"
      (.cons "gone" (.ro 1) (.cons "mem" (.ro 1) .nil)) "ident_gone" hg⟩

/-! Lemmas about the read and write loops. -/

/-- When every peek in range succeeds, the read loop returns the peeked
words in index order. -/
theorem readLoop_all_ok {ε : Type} (peek : Nat → Except ε Nat) (offset : Nat)
    (w : Nat → Nat) :
    ∀ count i,
      (∀ t, i ≤ t → t < i + count →
        peek ((offset + 4 * t) % 2 ^ 32) = .ok (w t)) →
      readLoop peek offset i count =
        .ok (List.ofFn fun t : Fin count => w (i + t.val)) := by
  intro count
  induction count with
  | zero => intro i _; simp [readLoop]
  | succ k ih =>
    intro i h
    have h0 : peek ((offset + 4 * i) % 2 ^ 32) = .ok (w i) :=
      h i (Nat.le_refl i) (by omega)
    have hrest := ih (i + 1) (fun t ht1 ht2 => h t (by omega) (by omega))
    simp only [readLoop, h0, hrest]
    congr 1
    rw [List.ofFn_succ]
    congr 1
    apply congrArg
    funext j
    congr 1
    simp only [Fin.val_succ]
    omega

/-- When the peek at index `j` fails and every earlier peek succeeds, the
read loop returns exactly that error. -/
theorem readLoop_first_err {ε : Type} (peek : Nat → Except ε Nat)
    (offset : Nat) :
    ∀ count i j e, i ≤ j → j < i + count →
      peek ((offset + 4 * j) % 2 ^ 32) = .error e →
      (∀ t, i ≤ t → t < j → ∃ v, peek ((offset + 4 * t) % 2 ^ 32) = .ok v) →
      readLoop peek offset i count = .error e := by
  intro count
  induction count with
  | zero => intro i j e h1 h2 _ _; omega
  | succ k ih =>
    intro i j e h1 h2 herr hok
    rcases Nat.eq_or_lt_of_le h1 with rfl | hlt
    · simp only [readLoop, herr]
    · obtain ⟨v, hv⟩ := hok i (Nat.le_refl i) hlt
      simp only [readLoop, hv]
      rw [ih (i + 1) j e hlt (by omega) herr
        (fun t ht1 ht2 => hok t (by omega) ht2)]

/-- Claim C7: for a handle of word count `N`, `read` peeks the bridge at
`offset, offset+4, ..., offset+4*(N-1)` in index order: when every peek
succeeds it returns the array of the `N` peeked words in index order, and
when the peek at some index fails while all earlier ones succeed, it
returns that bridge error and no partial result; `CsrRo::read` and
`CsrRw::read` behave identically. -/
theorem read_sequential_all_or_nothing {ε : Type} (peek : Nat → Except ε Nat)
    (offset N : Nat) (hfit : offset + 4 * N < 2 ^ 32) :
    (∀ w : Nat → Nat, (∀ i, i < N → peek (offset + 4 * i) = .ok (w i)) →
      CsrRo.read peek offset N = .ok (List.ofFn fun i : Fin N => w i.val) ∧
      CsrRw.read peek offset N = .ok (List.ofFn fun i : Fin N => w i.val)) ∧
    (∀ j e, j < N → peek (offset + 4 * j) = .error e →
      (∀ i, i < j → ∃ v, peek (offset + 4 * i) = .ok v) →
      CsrRo.read peek offset N = .error e ∧
      CsrRw.read peek offset N = .error e) := by
  have hmod : ∀ t, t < N → (offset + 4 * t) % 2 ^ 32 = offset + 4 * t :=
    fun t ht => Nat.mod_eq_of_lt (by omega)
  constructor
  · intro w h
    have := readLoop_all_ok peek offset w N 0
      (fun t _ ht2 => by rw [hmod t (by omega)]; exact h t (by omega))
    simp only [Nat.zero_add] at this
    exact ⟨this, this⟩
  · intro j e hj herr hok
    have := readLoop_first_err peek offset N 0 j e (Nat.zero_le j)
      (by omega) (by rw [hmod j hj]; exact herr)
      (fun t _ ht2 => by rw [hmod t (by omega)]; exact hok t ht2)
    exact ⟨this, this⟩

/-- A concrete bridge whose peeks succeed below address 24 and fail above:
used to instantiate C7. -/
def peekDemo : Nat → Except String Nat := fun a =>
  if a < 24 then .ok (a * 10) else .error "io"

/-- Witness for C7 at the concrete bridge `peekDemo`, `offset = 16`: with
`N = 2` both peeks (at 16 and 20) succeed and `read` returns `[160, 200]`;
with `N = 3` the third peek (at 24) fails and `read` returns the error. -/
theorem read_sequential_all_or_nothing_witness :
    CsrRo.read peekDemo 16 2 = .ok [160, 200] ∧
    CsrRo.read peekDemo 16 3 = .error "io" := by
  have h1 := read_sequential_all_or_nothing peekDemo 16 2 (by norm_num)
  have h2 := read_sequential_all_or_nothing peekDemo 16 3 (by norm_num)
  constructor
  · have := (h1.1 (fun i => (16 + 4 * i) * 10)
      (fun i hi => by interval_cases i <;> rfl)).1
    exact this.trans (by rfl)
  · exact (h2.2 2 "io" (by norm_num) rfl
      (fun i hi => by interval_cases i <;> exact ⟨_, rfl⟩)).1

/-! Lemmas about the mock bridge used for the round-trip property. -/

/-- Word addresses at distinct indices are distinct as long as the larger
index keeps `4*index` below `2^32`. -/
theorem word_addr_ne (offset a b : Nat) (hab : a < b) (hb : 4 * b < 2 ^ 32) :
    (offset + 4 * a) % 2 ^ 32 ≠ (offset + 4 * b) % 2 ^ 32 := by
  intro h
  have e : (2 : Nat) ^ 32 = 4294967296 := by norm_num
  rw [e] at h hb
  omega

/-- Writing through the mock bridge never fails and produces the
accumulated store. -/
theorem writeLoop_mock_ok (offset : Nat) :
    ∀ (values : List Nat) (s : Nat → Nat) (i : Nat),
      writeLoop mockPoke offset s i values = .ok (mockStore offset s i values) := by
  intro values
  induction values with
  | nil => intro s i; simp [writeLoop, mockStore]
  | cons v rest ih => intro s i; simp [writeLoop, mockPoke, mockStore, ih]

/-- The accumulated store is unchanged at any address not written to. -/
theorem mockStore_unchanged (offset : Nat) :
    ∀ (values : List Nat) (s : Nat → Nat) (i x : Nat),
      (∀ t, i ≤ t → t < i + values.length → x ≠ (offset + 4 * t) % 2 ^ 32) →
      mockStore offset s i values x = s x := by
  intro values
  induction values with
  | nil => intro s i x _; simp [mockStore]
  | cons v rest ih =>
    intro s i x h
    simp only [mockStore]
    rw [ih _ (i + 1) x
      (fun t ht1 ht2 => h t (by omega) (by simp only [List.length_cons]; omega))]
    have hx : x ≠ (offset + 4 * i) % 2 ^ 32 :=
      h i (Nat.le_refl i) (by simp only [List.length_cons]; omega)
    show (if x = (offset + 4 * i) % 2 ^ 32 then v else s x) = s x
    exact if_neg hx

/-- Reading back the address of index `t` from the accumulated store yields
the word written at index `t`, provided the written index range stays below
`2^32` in byte addresses. -/
theorem mockStore_read (offset : Nat) :
    ∀ (values : List Nat) (s : Nat → Nat) (i t : Nat),
      t < values.length → 4 * (i + values.length) ≤ 2 ^ 32 →
      mockStore offset s i values ((offset + 4 * (i + t)) % 2 ^ 32) =
        values.getD t 0 := by
  intro values
  induction values with
  | nil => intro s i t ht _; simp at ht
  | cons v rest ih =>
    intro s i t ht hfit
    match t with
    | 0 =>
      simp only [mockStore, Nat.add_zero]
      rw [mockStore_unchanged offset rest _ (i + 1) _ ?_]
      · simp
      · intro u hu1 hu2 heq
        exact word_addr_ne offset i u (by omega)
          (by simp only [List.length_cons] at hfit; omega) heq
    | u + 1 =>
      have harith : i + (u + 1) = (i + 1) + u := by omega
      rw [harith]
      simp only [mockStore, List.getD_cons_succ]
      exact ih _ (i + 1) u (by simpa using ht)
        (by simp only [List.length_cons] at hfit; omega)

/-- Claim C8: for a read-write handle of word count `N = values.length ≥ 1`
backed by the mock bridge (poke stores at the address, peek returns the
stored value), `write values` succeeds and a subsequent `read` over the
resulting device state returns exactly `values`. -/
theorem write_then_read_roundtrip (s : Nat → Nat) (offset : Nat)
    (values : List Nat) (hlen : 1 ≤ values.length)
    (hfit : 4 * values.length ≤ 2 ^ 32) :
    ∃ s2, CsrRw.write mockPoke s offset values = .ok s2 ∧
      CsrRw.read (mockPeek s2) offset values.length = .ok values := by
  refine ⟨mockStore offset s 0 values, writeLoop_mock_ok offset values s 0, ?_⟩
  unfold CsrRw.read
  rw [readLoop_all_ok (mockPeek (mockStore offset s 0 values)) offset
    (fun t => mockStore offset s 0 values ((offset + 4 * t) % 2 ^ 32))
    values.length 0 (fun t _ _ => rfl)]
  congr 1
  have key : ∀ t : Fin values.length,
      mockStore offset s 0 values ((offset + 4 * (0 + t.val)) % 2 ^ 32) =
        values[t.val] := by
    intro t
    calc mockStore offset s 0 values ((offset + 4 * (0 + t.val)) % 2 ^ 32)
        = values.getD t.val 0 :=
          mockStore_read offset values s 0 t.val t.isLt (by omega)
      _ = values[t.val] := List.getD_eq_getElem values 0 t.isLt
  calc List.ofFn (fun t : Fin values.length =>
        mockStore offset s 0 values ((offset + 4 * (0 + t.val)) % 2 ^ 32))
      = List.ofFn (fun t : Fin values.length => values[t.val]) := by
        apply congrArg
        funext t
        exact key t
    _ = values := List.ofFn_getElem values

/-- Witness for C8: over the all-zero initial store, writing `[7, 9]` at
offset 16 and reading two words back returns `[7, 9]`. -/
theorem write_then_read_roundtrip_witness :
    1 ≤ ([7, 9] : List Nat).length ∧
    ∃ s2, CsrRw.write mockPoke (fun _ => 0) 16 [7, 9] = .ok s2 ∧
      CsrRw.read (mockPeek s2) 16 ([7, 9] : List Nat).length = .ok [7, 9] :=
  ⟨by decide, write_then_read_roundtrip (fun _ => 0) 16 [7, 9]
    (by decide) (by norm_num)⟩
